import Mathlib

/-!
Shallow embedding of the engine core in `src/terminalEngine.py`
(class `TerminalEngine`): character grid buffers with differential
rendering, key-state rotation, the fixed-timestep tick-drain loop, and
the terminal setup/teardown performed by `run`.

Modelling conventions:
* A numpy array created by `np.full((height, width), " ", dtype=str)`
  has dtype `<U1`: each cell stores at most one character, and any
  longer string assigned to a cell is silently truncated to its first
  character.  A grid is modelled as `List (List String)` (rows of
  cells), and every store goes through `strTrunc`.
* Python `set` objects are modelled as `Finset String`.
* Python floats in the timing loop are modelled as exact rationals `ℚ`.
* The terminal-mode side effects of `run` are modelled as a trace of
  abstract actions; Python's `try/finally` is modelled by a combinator
  that always appends the cleanup actions and re-propagates the error.
-/

/-- numpy `<U1` cell assignment: a string stored into a one-character
unicode cell is truncated to its first character (an empty string stays
empty).  Models `self.buffer[y, x] = char` on a `dtype=str` array. -/
def strTrunc (s : String) : String := String.mk (s.toList.take 1)

/-- State of a `TerminalEngine` instance: the two grid buffers
(`buffer` is `current`, `prevBuffer` is `previous`) and the two
key-state sets.  Mirrors the fields set up in `TerminalEngine.__init__`
that the verified operations touch. -/
structure TerminalEngine where
  width : Nat
  height : Nat
  buffer : List (List String)
  prevBuffer : List (List String)
  keysPressed : Finset String
  keysReleased : Finset String
deriving DecidableEq

/-- `TerminalEngine.__init__(width, height, ...)`: both grids are filled
with the blank glyph `" "` and both key sets start empty. -/
def TerminalEngine.init (width height : Nat) : TerminalEngine :=
  { width := width
    height := height
    buffer := List.replicate height (List.replicate width " ")
    prevBuffer := List.replicate height (List.replicate width " ")
    keysPressed := ∅
    keysReleased := ∅ }

/-- Reading `g[y][x]` from a grid (row-major, as in `buffer[y, x]`);
out-of-range reads return the blank cell (never reached by the code,
which always checks bounds first). -/
def getCell (g : List (List String)) (x y : Nat) : String :=
  (g.getD y []).getD x " "

/-- Writing `g[y][x] = c` into a grid (row-major). -/
def setCellAt (g : List (List String)) (x y : Nat) (c : String) :
    List (List String) :=
  g.set y ((g.getD y []).set x c)

/-- `TerminalEngine.drawPixel(x, y, char)` (lines 40-42): writes `char`
at `(x, y)` when `0 <= x < width and 0 <= y < height`, else does
nothing.  The store truncates as numpy `<U1` assignment does. -/
def TerminalEngine.drawPixel (e : TerminalEngine) (x y : Int)
    (char : String) : TerminalEngine :=
  if 0 ≤ x ∧ x < (e.width : Int) ∧ 0 ≤ y ∧ y < (e.height : Int) then
    { e with buffer := setCellAt e.buffer x.toNat y.toNat (strTrunc char) }
  else e

/-- `TerminalEngine.drawText(x, y, text)` (lines 44-46):
`for i, char in enumerate(text): self.drawPixel(x + i, y, char)`,
rendered as structural recursion over the characters with the x
coordinate advancing by one per character. -/
def TerminalEngine.drawText (e : TerminalEngine) (x y : Int)
    (text : List Char) : TerminalEngine :=
  match text with
  | [] => e
  | c :: rest =>
      TerminalEngine.drawText (e.drawPixel x y (String.singleton c))
        (x + 1) y rest

/-- The changed-cell set computed by `render` (line 49-50):
`diff = self.buffer != self.prevBuffer; yIndices, xIndices = np.where(diff)`.
`np.where` on a 2-D boolean array returns the true positions in C
(row-major) order, so the diff is scanned row by row, and left to right
inside a row.  Each element is `(y, x, glyph)`. -/
def TerminalEngine.renderDiff (e : TerminalEngine) :
    List (Nat × Nat × String) :=
  (List.range e.height).flatMap (fun y =>
    (List.range e.width).filterMap (fun x =>
      if getCell e.buffer x y ≠ getCell e.prevBuffer x y then
        some (y, x, getCell e.buffer x y)
      else none))

/-- The string written for one changed cell (line 52):
`sys.stdout.write(f"\033[{y+1};{x+1}H{self.buffer[y, x]}")` —
a cursor-position escape addressing row `y+1`, column `x+1`, followed by
the bare cell contents. -/
def emitCell (y x : Nat) (s : String) : String :=
  "\x1b[" ++ toString (y + 1) ++ ";" ++ toString (x + 1) ++ "H" ++ s

/-- `TerminalEngine.render()` (lines 48-54): returns the list of strings
written to stdout (one per changed cell, in `np.where` order) and the
state after `np.copyto(self.prevBuffer, self.buffer)` (a full copy into
`previous`; `current` is untouched). -/
def TerminalEngine.render (e : TerminalEngine) :
    List String × TerminalEngine :=
  ((e.renderDiff).map (fun t => emitCell t.1 t.2.1 t.2.2),
   { e with prevBuffer := e.buffer })

/-- `TerminalEngine.isKeyPressed(key)` (lines 79-80):
`key in self.keysPressed`. -/
def TerminalEngine.isKeyPressed (e : TerminalEngine) (key : String) :
    Bool :=
  decide (key ∈ e.keysPressed)

/-- `TerminalEngine.isKeyReleased(key)` (lines 82-83):
`key in self.keysReleased`. -/
def TerminalEngine.isKeyReleased (e : TerminalEngine) (key : String) :
    Bool :=
  decide (key ∈ e.keysReleased)

/-- `TerminalEngine.clearKeyStates()` (lines 85-87):
`self.keysReleased = self.keysPressed; self.keysPressed = set()`. -/
def TerminalEngine.clearKeyStates (e : TerminalEngine) : TerminalEngine :=
  { e with keysReleased := e.keysPressed, keysPressed := ∅ }

/-- Well-formedness of an engine state: both grids have exactly
`height` rows of exactly `width` cells, as guaranteed by `__init__`. -/
def TerminalEngine.wf (e : TerminalEngine) : Prop :=
  e.buffer.length = e.height ∧ e.prevBuffer.length = e.height ∧
  (∀ row ∈ e.buffer, row.length = e.width) ∧
  (∀ row ∈ e.prevBuffer, row.length = e.width)

instance (e : TerminalEngine) : Decidable e.wf := by
  unfold TerminalEngine.wf
  infer_instance

/-- `self.tickDuration = 1.0 / tickRate` (line 26), as an exact
rational. -/
def tickDurationOf (tickRate : Nat) : ℚ := 1 / (tickRate : ℚ)

/-- The tick-drain loop of `run` (lines 121-125) with `r` the number of
updates still allowed (`r = 5 - updateCount`):
`while lag >= self.tickDuration and updateCount < 5:` — each pass calls
`self.update(self.tickDuration)`, does `lag -= self.tickDuration`, and
increments `updateCount`.  Returns the number of `update` calls made and
the final `lag`. -/
def drainLoop (td : ℚ) : Nat → ℚ → Nat × ℚ
  | 0, lag => (0, lag)
  | r + 1, lag =>
    if td ≤ lag then
      let res := drainLoop td r (lag - td)
      (res.1 + 1, res.2)
    else (0, lag)

/-- One outer-loop pass of the drain (starting from `updateCount = 0`,
so up to 5 updates). -/
def tickDrain (td lag : ℚ) : Nat × ℚ := drainLoop td 5 lag

/-- Terminal-affecting steps performed by `run` (lines 101-139), in
program order. -/
inductive TermAction where
  | clearScreen
  | hideCursor
  | setRaw
  | startInput
  | stopInput
  | restoreMode
  | showCursor
deriving DecidableEq

/-- `TerminalEngine.restoreTerminal()` (lines 96-99): restore the saved
termios settings, then print the show-cursor escape. -/
def restoreTerminalActions : List TermAction :=
  [TermAction.restoreMode, TermAction.showCursor]

/-- Python `try/finally` over action traces: whatever the body produced
(its trace and an optional propagating exception), the cleanup actions
run afterwards and the exception, if any, still propagates. -/
def tryFinallyActions (body : List TermAction × Option String)
    (cleanup : List TermAction) : List TermAction × Option String :=
  (body.1 ++ cleanup, body.2)

/-- Outcome of the `while self.running:` body inside the `try` of `run`
(lines 115-136): either the loop finishes normally (`running` became
false) or an exception raised by `self.update(...)` or `self.render()`
propagates out of it.  The loop itself performs no terminal-mode
actions. -/
def mainLoopActions (outcome : Except String Unit) :
    List TermAction × Option String :=
  match outcome with
  | Except.ok _ => ([], none)
  | Except.error e => ([], some e)

/-- `TerminalEngine.run()` (lines 101-139): clear screen, hide cursor,
enter raw mode, start the input thread, then the main loop wrapped in
`try ... finally: self.stopInputThread(); self.restoreTerminal()`. -/
def runSession (outcome : Except String Unit) :
    List TermAction × Option String :=
  let setup := [TermAction.clearScreen, TermAction.hideCursor,
    TermAction.setRaw, TermAction.startInput]
  let res := tryFinallyActions (mainLoopActions outcome)
    ([TermAction.stopInput] ++ restoreTerminalActions)
  (setup ++ res.1, res.2)

/-! ## General lemmas about the tick-drain loop -/

theorem drainLoop_count_le (td : ℚ) :
    ∀ (r : Nat) (lag : ℚ), (drainLoop td r lag).1 ≤ r := by
  intro r
  induction r with
  | zero => intro lag; simp [drainLoop]
  | succ r ih =>
    intro lag
    simp only [drainLoop]
    split
    · simpa using ih (lag - td)
    · simp

theorem drainLoop_lag_eq (td : ℚ) :
    ∀ (r : Nat) (lag : ℚ),
      (drainLoop td r lag).2 = lag - (drainLoop td r lag).1 * td := by
  intro r
  induction r with
  | zero => intro lag; simp [drainLoop]
  | succ r ih =>
    intro lag
    simp only [drainLoop]
    split
    · have h := ih (lag - td)
      simp only [h]
      push_cast
      ring
    · simp

theorem drainLoop_stop (td : ℚ) :
    ∀ (r : Nat) (lag : ℚ),
      (drainLoop td r lag).1 < r → (drainLoop td r lag).2 < td := by
  intro r
  induction r with
  | zero => intro lag h; simp [drainLoop] at h
  | succ r ih =>
    intro lag
    simp only [drainLoop]
    split
    · intro h
      exact ih (lag - td) (by omega)
    · intro _
      exact lt_of_not_le (by assumption)

theorem drainLoop_full (td : ℚ) (htd : 0 < td) :
    ∀ (r : Nat) (lag : ℚ), (r : ℚ) * td ≤ lag → (drainLoop td r lag).1 = r := by
  intro r
  induction r with
  | zero => intro lag _; simp [drainLoop]
  | succ r ih =>
    intro lag hlag
    have h1 : td ≤ lag := by
      have : (1 : ℚ) * td ≤ ((r : ℚ) + 1) * td := by
        apply mul_le_mul_of_nonneg_right _ (le_of_lt htd)
        linarith [Nat.cast_nonneg (α := ℚ) r]
      push_cast at hlag
      linarith
    simp only [drainLoop, if_pos h1]
    have h2 : (r : ℚ) * td ≤ lag - td := by
      push_cast at hlag
      linarith
    simp [ih (lag - td) h2]

/-- C1: In every outer loop iteration the tick-drain loop calls
`update(tickDuration)` while `lag >= tickDuration`, decrementing `lag`
by `tickDuration` per call, never more than 5 times per iteration; when
the loop stops short of the cap it is because the remaining lag dropped
below one tick, and the residual lag (including all excess lag when the
cap is hit) is retained in the accumulator, equal to the initial lag
minus exactly the ticks consumed.  In particular any stall of at least
5 tick durations fires exactly 5 ticks. -/
theorem tickDrain_cap_and_retention (td lag : ℚ) (htd : 0 < td) :
    (tickDrain td lag).1 ≤ 5
    ∧ (tickDrain td lag).2 = lag - (tickDrain td lag).1 * td
    ∧ ((tickDrain td lag).1 < 5 → (tickDrain td lag).2 < td)
    ∧ (5 * td ≤ lag → (tickDrain td lag).1 = 5) := by
  refine ⟨drainLoop_count_le td 5 lag, drainLoop_lag_eq td 5 lag,
    drainLoop_stop td 5 lag, fun h => drainLoop_full td htd 5 lag ?_⟩
  push_cast
  linarith

/-- Witness for C1 at the spec's 10-second-stall scenario: tick rate 60,
lag 10 s; 5 ticks fire and the excess lag is retained. -/
theorem tickDrain_cap_and_retention_witness :
    0 < tickDurationOf 60
    ∧ ((tickDrain (tickDurationOf 60) 10).1 ≤ 5
      ∧ (tickDrain (tickDurationOf 60) 10).2 =
          10 - (tickDrain (tickDurationOf 60) 10).1 * tickDurationOf 60
      ∧ ((tickDrain (tickDurationOf 60) 10).1 < 5 →
          (tickDrain (tickDurationOf 60) 10).2 < tickDurationOf 60)
      ∧ (5 * tickDurationOf 60 ≤ 10 →
          (tickDrain (tickDurationOf 60) 10).1 = 5)) :=
  ⟨by norm_num [tickDurationOf],
   tickDrain_cap_and_retention (tickDurationOf 60) 10
     (by norm_num [tickDurationOf])⟩

/-- C6 counterexample: with tick rate 60 and an accumulated elapsed time
of exactly 0.05 s = 1/20 s, the drain loop fires exactly 3 full ticks
(0.05 s is exactly three tick durations), not 2 as claimed, and the
retained lag is 0, not ≈ 0.0167 s. -/
theorem tickDrain_fiftyMs_counterexample :
    tickDrain (tickDurationOf 60) (1 / 20) = (3, 0)
    ∧ (tickDrain (tickDurationOf 60) (1 / 20)).1 ≠ 2 := by
  norm_num [tickDrain, tickDurationOf, drainLoop]

/-- C6 (amended): with tick rate 60 (tickDuration = 1/60 s) and an
accumulated elapsed time of exactly 0.05 s fed into the drain loop,
exactly 3 full ticks fire (0.05 s = 3 × 1/60 s), a fourth tick does not
fire, and the retained remainder lag is 0. -/
theorem tickDrain_fiftyMs :
    tickDrain (tickDurationOf 60) (1 / 20) = (3, 0) := by
  norm_num [tickDrain, tickDurationOf, drainLoop]

/-- C3: a key surfaces for exactly one rotation window: if `k` is in
`keysPressed`, then `isKeyPressed k` is true before any rotation; after
one `clearKeyStates()` it is no longer pressed but is released; after a
second `clearKeyStates()` with no intervening input it is neither, and
both key sets are empty. -/
theorem keyRotation_single_window (e : TerminalEngine) (k : String)
    (hk : k ∈ e.keysPressed) :
    e.isKeyPressed k = true
    ∧ (e.clearKeyStates).isKeyPressed k = false
    ∧ (e.clearKeyStates).isKeyReleased k = true
    ∧ ((e.clearKeyStates).clearKeyStates).isKeyPressed k = false
    ∧ ((e.clearKeyStates).clearKeyStates).isKeyReleased k = false
    ∧ ((e.clearKeyStates).clearKeyStates).keysPressed = ∅
    ∧ ((e.clearKeyStates).clearKeyStates).keysReleased = ∅ := by
  simp [TerminalEngine.isKeyPressed, TerminalEngine.isKeyReleased,
    TerminalEngine.clearKeyStates, hk]

/-- Witness for C3 at the spec's scenario: key "q" pressed. -/
theorem keyRotation_single_window_witness :
    "q" ∈ ({ TerminalEngine.init 2 2 with
        keysPressed := {"q"} } : TerminalEngine).keysPressed
    ∧ (({ TerminalEngine.init 2 2 with
          keysPressed := {"q"} } : TerminalEngine).isKeyPressed "q" = true
      ∧ (({ TerminalEngine.init 2 2 with
          keysPressed := {"q"} } : TerminalEngine).clearKeyStates).isKeyPressed
            "q" = false
      ∧ (({ TerminalEngine.init 2 2 with
          keysPressed := {"q"} } : TerminalEngine).clearKeyStates).isKeyReleased
            "q" = true
      ∧ ((({ TerminalEngine.init 2 2 with
          keysPressed := {"q"} } : TerminalEngine).clearKeyStates).clearKeyStates).isKeyPressed
            "q" = false
      ∧ ((({ TerminalEngine.init 2 2 with
          keysPressed := {"q"} } : TerminalEngine).clearKeyStates).clearKeyStates).isKeyReleased
            "q" = false
      ∧ ((({ TerminalEngine.init 2 2 with
          keysPressed := {"q"} } : TerminalEngine).clearKeyStates).clearKeyStates).keysPressed = ∅
      ∧ ((({ TerminalEngine.init 2 2 with
          keysPressed := {"q"} } : TerminalEngine).clearKeyStates).clearKeyStates).keysReleased = ∅) :=
  ⟨by decide,
   keyRotation_single_window
     { TerminalEngine.init 2 2 with keysPressed := {"q"} } "q" (by decide)⟩

/-- C5: on every exit of the main loop — the loop body finishing
normally or an exception propagating out of `update()`/`render()` — the
`finally` block stops the input thread and restores the terminal (saved
mode and cursor visibility) before `run` returns or the error
propagates onward. -/
theorem runSession_always_restores (outcome : Except String Unit) :
    List.IsSuffix
      [TermAction.stopInput, TermAction.restoreMode, TermAction.showCursor]
      (runSession outcome).1
    ∧ ((runSession outcome).2 = match outcome with
        | Except.ok _ => none
        | Except.error msg => some msg)
    ∧ (∀ msg, outcome = Except.error msg →
        (runSession outcome).2 = some msg) := by
  cases outcome with
  | ok _ =>
    refine ⟨⟨[TermAction.clearScreen, TermAction.hideCursor,
      TermAction.setRaw, TermAction.startInput], rfl⟩, rfl, ?_⟩
    intro msg h
    cases h
  | error msg =>
    refine ⟨⟨[TermAction.clearScreen, TermAction.hideCursor,
      TermAction.setRaw, TermAction.startInput], rfl⟩, rfl, ?_⟩
    intro msg' h
    cases h
    rfl

/-- Witness for C5 at a concrete erroring loop body. -/
theorem runSession_always_restores_witness :
    List.IsSuffix
      [TermAction.stopInput, TermAction.restoreMode, TermAction.showCursor]
      (runSession (Except.error "render failed")).1
    ∧ ((runSession (Except.error "render failed")).2 =
        match (Except.error "render failed" : Except String Unit) with
        | Except.ok _ => none
        | Except.error msg => some msg)
    ∧ (∀ msg, (Except.error "render failed" : Except String Unit) =
          Except.error msg →
        (runSession (Except.error "render failed")).2 = some msg) :=
  runSession_always_restores (Except.error "render failed")

/-! ## General lemmas about grid reads and writes -/

theorem getD_set_if {α : Type} (l : List α) (i j : Nat) (a d : α) :
    (l.set i a).getD j d = if i = j ∧ i < l.length then a else l.getD j d := by
  rw [List.getD_eq_getElem?_getD, List.getD_eq_getElem?_getD, List.getElem?_set]
  by_cases h1 : i = j
  · subst h1
    by_cases h2 : i < l.length
    · simp [h2]
    · simp [h2, List.getElem?_eq_none (by omega : l.length ≤ i)]
  · simp [h1]

theorem getCell_setCellAt (g : List (List String)) (x y a b : Nat)
    (c : String) (hy : y < g.length) (hx : x < (g.getD y []).length) :
    getCell (setCellAt g x y c) a b =
      if a = x ∧ b = y then c else getCell g a b := by
  unfold getCell setCellAt
  rw [getD_set_if]
  by_cases hb : y = b
  · subst hb
    rw [if_pos ⟨rfl, hy⟩, getD_set_if]
    by_cases ha : x = a
    · subst ha
      rw [if_pos ⟨rfl, hx⟩, if_pos ⟨rfl, rfl⟩]
    · rw [if_neg (by tauto), if_neg (by tauto)]
  · rw [if_neg (by tauto), if_neg (by tauto)]

theorem drawPixel_width (e : TerminalEngine) (x y : Int) (s : String) :
    (e.drawPixel x y s).width = e.width := by
  unfold TerminalEngine.drawPixel
  split <;> rfl

theorem drawPixel_height (e : TerminalEngine) (x y : Int) (s : String) :
    (e.drawPixel x y s).height = e.height := by
  unfold TerminalEngine.drawPixel
  split <;> rfl

theorem drawPixel_prevBuffer (e : TerminalEngine) (x y : Int) (s : String) :
    (e.drawPixel x y s).prevBuffer = e.prevBuffer := by
  unfold TerminalEngine.drawPixel
  split <;> rfl

theorem drawPixel_wf (e : TerminalEngine) (x y : Int) (s : String)
    (h : e.wf) : (e.drawPixel x y s).wf := by
  obtain ⟨h1, h2, h3, h4⟩ := h
  unfold TerminalEngine.drawPixel
  split
  case isTrue hin =>
    refine ⟨?_, h2, ?_, h4⟩
    · simpa [setCellAt] using h1
    · intro row hrow
      simp only [setCellAt] at hrow
      rcases List.mem_or_eq_of_mem_set hrow with hmem | heq
      · exact h3 row hmem
      · subst heq
        rw [List.length_set]
        have hy : y.toNat < e.buffer.length := by rw [h1]; omega
        rw [List.getD_eq_getElem e.buffer [] hy]
        exact h3 _ (List.getElem_mem hy)
  case isFalse hout =>
    exact ⟨h1, h2, h3, h4⟩

theorem getCell_drawPixel (e : TerminalEngine) (hwf : e.wf) (x y : Int)
    (s : String) (a b : Nat) (ha : a < e.width) (hb : b < e.height) :
    getCell (e.drawPixel x y s).buffer a b =
      if (a : Int) = x ∧ (b : Int) = y then strTrunc s
      else getCell e.buffer a b := by
  obtain ⟨h1, h2, h3, h4⟩ := hwf
  unfold TerminalEngine.drawPixel
  split
  case isTrue hin =>
    obtain ⟨hx0, hxw, hy0, hyh⟩ := hin
    have hy' : y.toNat < e.buffer.length := by rw [h1]; omega
    have hrow : (e.buffer.getD y.toNat []).length = e.width := by
      rw [List.getD_eq_getElem e.buffer [] hy']
      exact h3 _ (List.getElem_mem hy')
    have hx' : x.toNat < (e.buffer.getD y.toNat []).length := by
      rw [hrow]; omega
    show getCell (setCellAt e.buffer x.toNat y.toNat (strTrunc s)) a b = _
    rw [getCell_setCellAt e.buffer x.toNat y.toNat a b _ hy' hx']
    by_cases hc : (a : Int) = x ∧ (b : Int) = y
    · rw [if_pos (by omega), if_pos hc]
    · rw [if_neg (by omega), if_neg hc]
  case isFalse hout =>
    rw [if_neg ?_]
    intro ⟨hax, hby⟩
    apply hout
    have ha' : (a : Int) < (e.width : Int) := by exact_mod_cast Nat.cast_lt.mpr ha
    have hb' : (b : Int) < (e.height : Int) := by exact_mod_cast Nat.cast_lt.mpr hb
    omega

theorem drawText_prevBuffer (text : List Char) :
    ∀ (e : TerminalEngine) (x y : Int),
      (e.drawText x y text).prevBuffer = e.prevBuffer := by
  induction text with
  | nil => intro e x y; rfl
  | cons c rest ih =>
    intro e x y
    show ((e.drawPixel x y (String.singleton c)).drawText (x + 1) y
      rest).prevBuffer = _
    rw [ih, drawPixel_prevBuffer]

theorem drawText_width (text : List Char) :
    ∀ (e : TerminalEngine) (x y : Int),
      (e.drawText x y text).width = e.width := by
  induction text with
  | nil => intro e x y; rfl
  | cons c rest ih =>
    intro e x y
    show ((e.drawPixel x y (String.singleton c)).drawText (x + 1) y
      rest).width = _
    rw [ih, drawPixel_width]

theorem drawText_height (text : List Char) :
    ∀ (e : TerminalEngine) (x y : Int),
      (e.drawText x y text).height = e.height := by
  induction text with
  | nil => intro e x y; rfl
  | cons c rest ih =>
    intro e x y
    show ((e.drawPixel x y (String.singleton c)).drawText (x + 1) y
      rest).height = _
    rw [ih, drawPixel_height]

theorem drawText_wf (text : List Char) :
    ∀ (e : TerminalEngine) (x y : Int), e.wf → (e.drawText x y text).wf := by
  induction text with
  | nil => intro e x y h; exact h
  | cons c rest ih =>
    intro e x y h
    exact ih (e.drawPixel x y (String.singleton c)) (x + 1) y
      (drawPixel_wf e x y (String.singleton c) h)

theorem drawText_getCell (text : List Char) :
    ∀ (e : TerminalEngine), e.wf → ∀ (x y : Int) (a b : Nat),
      a < e.width → b < e.height →
      getCell (e.drawText x y text).buffer a b =
        if (b : Int) = y ∧ x ≤ (a : Int) ∧ (a : Int) < x + text.length
        then String.mk [text.getD ((a : Int) - x).toNat ' ']
        else getCell e.buffer a b := by
  induction text with
  | nil =>
    intro e _ x y a b _ _
    rw [if_neg (by simp)]
    rfl
  | cons c rest ih =>
    intro e hwf x y a b ha hb
    have hwf' := drawPixel_wf e x y (String.singleton c) hwf
    have hW := drawPixel_width e x y (String.singleton c)
    have hH := drawPixel_height e x y (String.singleton c)
    show getCell ((e.drawPixel x y (String.singleton c)).drawText (x + 1) y
      rest).buffer a b = _
    rw [ih (e.drawPixel x y (String.singleton c)) hwf' (x + 1) y a b
      (by rw [hW]; exact ha) (by rw [hH]; exact hb)]
    simp only [List.length_cons, Nat.cast_add, Nat.cast_one]
    by_cases h1 : (b : Int) = y
    · by_cases h2 : x + 1 ≤ (a : Int)
      · by_cases h3 : (a : Int) < x + 1 + rest.length
        · rw [if_pos ⟨h1, h2, h3⟩, if_pos ⟨h1, by omega, by omega⟩]
          have hidx : ((a : Int) - x).toNat = ((a : Int) - (x + 1)).toNat + 1 := by
            omega
          rw [hidx, List.getD_cons_succ]
        · rw [if_neg (by tauto),
            getCell_drawPixel e hwf x y (String.singleton c) a b ha hb,
            if_neg (by omega), if_neg (by omega)]
      · by_cases h4 : (a : Int) = x
        · rw [if_neg (by omega),
            getCell_drawPixel e hwf x y (String.singleton c) a b ha hb,
            if_pos ⟨h4, h1⟩, if_pos ⟨h1, by omega, by omega⟩]
          have hidx : ((a : Int) - x).toNat = 0 := by omega
          rw [hidx, List.getD_cons_zero]
          rfl
        · rw [if_neg (by omega),
            getCell_drawPixel e hwf x y (String.singleton c) a b ha hb,
            if_neg (by tauto), if_neg (by omega)]
    · rw [if_neg (by tauto),
        getCell_drawPixel e hwf x y (String.singleton c) a b ha hb,
        if_neg (by tauto), if_neg (by tauto)]

/-- C4: out-of-bounds drawing is a silent no-op and text drawing clips
exactly its out-of-bounds characters: for a well-formed engine,
(1) `drawPixel` at any position outside `[0,width) × [0,height)` returns
the state unchanged (both grids untouched, no error — the function is
total), and (2) `drawText(x, y, text)` leaves `previous` untouched and
sets every in-grid cell `(a, b)` to the text character that lands on it
(`text[a - x]` when `b = y` and `x ≤ a < x + len`), leaving every other
cell — in particular every cell a clipped, out-of-bounds character
would have targeted — exactly as it was. -/
theorem drawing_clips_oob (e : TerminalEngine) (hwf : e.wf) :
    (∀ (x y : Int) (s : String),
        ¬(0 ≤ x ∧ x < (e.width : Int) ∧ 0 ≤ y ∧ y < (e.height : Int)) →
        e.drawPixel x y s = e)
    ∧ (∀ (x y : Int) (text : List Char),
        (e.drawText x y text).prevBuffer = e.prevBuffer
        ∧ (∀ (a b : Nat), a < e.width → b < e.height →
            getCell (e.drawText x y text).buffer a b =
              if (b : Int) = y ∧ x ≤ (a : Int) ∧ (a : Int) < x + text.length
              then String.mk [text.getD ((a : Int) - x).toNat ' ']
              else getCell e.buffer a b)) := by
  constructor
  · intro x y s h
    unfold TerminalEngine.drawPixel
    rw [if_neg h]
  · intro x y text
    exact ⟨drawText_prevBuffer text e x y,
      fun a b ha hb => drawText_getCell text e hwf x y a b ha hb⟩

/-- Witness for C4: on a well-formed 3×2 engine, `drawPixel` at the
out-of-bounds position (5, 0) is a no-op, and `drawText(-1, 1, "ab")`
clips the character falling at x = -1 while writing the one at (0, 1). -/
theorem drawing_clips_oob_witness :
    (TerminalEngine.init 3 2).wf
    ∧ (TerminalEngine.init 3 2).drawPixel 5 0 "@" = TerminalEngine.init 3 2
    ∧ getCell ((TerminalEngine.init 3 2).drawText (-1) 1
        ['a', 'b']).buffer 0 1 =
        (if ((1 : Nat) : Int) = 1 ∧ (-1 : Int) ≤ ((0 : Nat) : Int) ∧
            ((0 : Nat) : Int) < -1 + (['a', 'b'] : List Char).length
         then String.mk [(['a', 'b'] : List Char).getD
            (((0 : Nat) : Int) - (-1)).toNat ' ']
         else getCell (TerminalEngine.init 3 2).buffer 0 1) :=
  ⟨by decide,
   (drawing_clips_oob (TerminalEngine.init 3 2) (by decide)).1 5 0 "@"
     (by decide),
   ((drawing_clips_oob (TerminalEngine.init 3 2) (by decide)).2 (-1) 1
     ['a', 'b']).2 0 1 (by decide) (by decide)⟩

/-- C9: an in-bounds `drawPixel` whose glyph argument is a longer
string stores only the first character of that string in the cell (the
numpy `<U1` grid truncates silently): the written cell reads back as
`String.mk (s.toList.take 1)`, which for any nonempty `s` is the
one-character string holding the head of `s`. -/
theorem drawPixel_stores_first_char (e : TerminalEngine) (hwf : e.wf)
    (x y : Int) (s : String)
    (hin : 0 ≤ x ∧ x < (e.width : Int) ∧ 0 ≤ y ∧ y < (e.height : Int)) :
    getCell (e.drawPixel x y s).buffer x.toNat y.toNat =
      String.mk (s.toList.take 1)
    ∧ (∀ (c : Char) (cs : List Char), s.toList = c :: cs →
        getCell (e.drawPixel x y s).buffer x.toNat y.toNat =
          String.singleton c) := by
  obtain ⟨hx0, hxw, hy0, hyh⟩ := hin
  have h := getCell_drawPixel e hwf x y s x.toNat y.toNat
    (by omega) (by omega)
  rw [if_pos (by omega)] at h
  refine ⟨h, fun c cs hs => ?_⟩
  rw [h]
  have h' : s.data = c :: cs := hs
  simp [strTrunc, String.singleton, String.push, h']

/-- Witness for C9: storing "ab" at (0, 0) of a 2×2 engine keeps only
'a'. -/
theorem drawPixel_stores_first_char_witness :
    (TerminalEngine.init 2 2).wf
    ∧ ((0 : Int) ≤ 0 ∧ (0 : Int) < ((TerminalEngine.init 2 2).width : Int)
        ∧ (0 : Int) ≤ 0
        ∧ (0 : Int) < ((TerminalEngine.init 2 2).height : Int))
    ∧ getCell ((TerminalEngine.init 2 2).drawPixel 0 0 "ab").buffer
        (0 : Int).toNat (0 : Int).toNat = String.singleton 'a' :=
  ⟨by decide, by decide,
   (drawPixel_stores_first_char (TerminalEngine.init 2 2) (by decide)
       0 0 "ab" (by decide)).2 'a' ['b'] (by decide)⟩

/-! ## General lemmas about the differential renderer -/

theorem renderDiff_mem (e : TerminalEngine) (y x : Nat) (c : String) :
    (y, x, c) ∈ e.renderDiff ↔
      y < e.height ∧ x < e.width ∧
      getCell e.buffer x y ≠ getCell e.prevBuffer x y ∧
      c = getCell e.buffer x y := by
  unfold TerminalEngine.renderDiff
  simp only [List.mem_flatMap, List.mem_filterMap, List.mem_range]
  constructor
  · rintro ⟨y', hy', x', hx', hsome⟩
    by_cases hne : getCell e.buffer x' y' ≠ getCell e.prevBuffer x' y'
    · rw [if_pos hne] at hsome
      simp only [Option.some.injEq, Prod.mk.injEq] at hsome
      obtain ⟨rfl, rfl, hc⟩ := hsome
      exact ⟨hy', hx', hne, hc.symm⟩
    · rw [if_neg hne] at hsome
      cases hsome
  · rintro ⟨hy, hx, hne, rfl⟩
    exact ⟨y, hy, x, hx, by rw [if_pos hne]⟩

theorem renderDiff_noChange (e : TerminalEngine)
    (h : e.prevBuffer = e.buffer) : e.renderDiff = [] := by
  unfold TerminalEngine.renderDiff
  rw [h]
  simp

theorem ifSome_inv {α : Type} {c : Prop} [Decidable c] {v p : α}
    (h : (if c then some v else none) = some p) : c ∧ p = v := by
  by_cases hc : c
  · rw [if_pos hc] at h
    exact ⟨hc, (Option.some.inj h).symm⟩
  · rw [if_neg hc] at h
    cases h

theorem pairwise_filterMap_range {α : Type} (R : α → α → Prop)
    (g : Nat → Option α) (n : Nat)
    (h : ∀ i j a b, i < j → j < n → g i = some a → g j = some b → R a b) :
    ((List.range n).filterMap g).Pairwise R := by
  induction n with
  | zero => simp
  | succ n ih =>
    rw [List.range_succ n, List.filterMap_append (List.range n) [n] g,
      List.pairwise_append]
    refine ⟨ih (fun i j a b hij hj hgi hgj =>
      h i j a b hij (by omega) hgi hgj), ?_, ?_⟩
    · cases hg : g n <;> simp [List.filterMap, hg]
    · intro a ha b hb
      rw [List.mem_filterMap] at ha hb
      obtain ⟨i, hi, hgi⟩ := ha
      obtain ⟨j, hj, hgj⟩ := hb
      rw [List.mem_range] at hi
      simp only [List.mem_singleton] at hj
      subst hj
      exact h i j a b hi (by omega) hgi hgj

theorem pairwise_flatMap_range {α : Type} (R : α → α → Prop)
    (f : Nat → List α) (n : Nat)
    (hinner : ∀ i, i < n → (f i).Pairwise R)
    (hcross : ∀ i j a b, i < j → j < n → a ∈ f i → b ∈ f j → R a b) :
    ((List.range n).flatMap f).Pairwise R := by
  induction n with
  | zero => simp
  | succ n ih =>
    rw [List.range_succ n, List.flatMap_append (List.range n) [n] f,
      List.pairwise_append]
    refine ⟨ih (fun i hi => hinner i (by omega))
      (fun i j a b hij hj hai hbj =>
        hcross i j a b hij (by omega) hai hbj), ?_, ?_⟩
    · simpa using hinner n (Nat.lt_succ_self n)
    · intro a ha b hb
      rw [List.mem_flatMap] at ha hb
      obtain ⟨i, hi, hai⟩ := ha
      obtain ⟨j, hj, hbj⟩ := hb
      rw [List.mem_range] at hi
      simp only [List.mem_singleton] at hj
      subst hj
      exact hcross i j a b hi (by omega) hai hbj

/-- C2: `render()` emits output exactly for the cells where `current`
differs from `previous` — membership in the diff is equivalent to being
an in-grid position whose two buffer entries differ, carrying the
current glyph — and after `render()` the new `previous` is a full copy
of `current` (which itself is untouched), so a second `render()` with
no intervening mutation has an empty diff and emits no output.  On the
spec's scenario (10×4 grid, '@' written at (2,1)) the first diff is
exactly the one cell (1, 2, "@") and the second is empty. -/
theorem render_diff_exact_and_promotes :
    (∀ (e : TerminalEngine) (y x : Nat) (c : String),
        (y, x, c) ∈ e.renderDiff ↔
          y < e.height ∧ x < e.width ∧
          getCell e.buffer x y ≠ getCell e.prevBuffer x y ∧
          c = getCell e.buffer x y)
    ∧ (∀ e : TerminalEngine,
        (e.render).2.prevBuffer = e.buffer
        ∧ (e.render).2.buffer = e.buffer
        ∧ ((e.render).2).renderDiff = []
        ∧ (((e.render).2).render).1 = [])
    ∧ ((TerminalEngine.init 10 4).drawPixel 2 1 "@").renderDiff
        = [(1, 2, "@")]
    ∧ ((((TerminalEngine.init 10 4).drawPixel 2 1 "@").render).2).renderDiff
        = [] := by
  refine ⟨fun e y x c => renderDiff_mem e y x c,
    fun e => ⟨rfl, rfl, renderDiff_noChange _ rfl, ?_⟩,
    by decide, by decide⟩
  show ((e.render).2.renderDiff).map _ = []
  rw [renderDiff_noChange _ rfl]
  rfl

/-- C10: the diff emitted by `render()` is in row-major order — for any
two changed cells, the one in the earlier row comes first, and within a
row the one with the smaller column comes first (this is the C-order
guarantee of `np.where`). -/
theorem renderDiff_row_major (e : TerminalEngine) :
    e.renderDiff.Pairwise
      (fun p q => p.1 < q.1 ∨ (p.1 = q.1 ∧ p.2.1 < q.2.1)) := by
  unfold TerminalEngine.renderDiff
  apply pairwise_flatMap_range
  · intro i _
    apply pairwise_filterMap_range
    intro a b p q hab _ hp hq
    obtain ⟨_, hpv⟩ := ifSome_inv hp
    obtain ⟨_, hqv⟩ := ifSome_inv hq
    subst hpv
    subst hqv
    exact Or.inr ⟨rfl, hab⟩
  · intro i j p q hij _ hp hq
    rw [List.mem_filterMap] at hp hq
    obtain ⟨a, _, hpa⟩ := hp
    obtain ⟨b, _, hqb⟩ := hq
    obtain ⟨_, hpv⟩ := ifSome_inv hpa
    obtain ⟨_, hqv⟩ := ifSome_inv hqb
    subst hpv
    subst hqv
    exact Or.inl hij

/-- C8: every changed cell at 0-indexed grid coordinates (x, y) is
emitted by `render()` as a cursor-position command addressing the
1-indexed terminal position: row `y + 1`, column `x + 1`, then the
glyph. -/
theorem render_one_indexed (e : TerminalEngine) (y x : Nat) (c : String)
    (h : (y, x, c) ∈ e.renderDiff) :
    emitCell y x c ∈ (e.render).1
    ∧ emitCell y x c =
        "\x1b[" ++ toString (y + 1) ++ ";" ++ toString (x + 1) ++ "H" ++ c := by
  refine ⟨?_, rfl⟩
  unfold TerminalEngine.render
  simp only [List.mem_map]
  exact ⟨(y, x, c), h, rfl⟩

/-- Witness for C8: a 3×2 engine with 'Z' drawn at grid (1, 0) emits the
escape addressing terminal row 1, column 2. -/
theorem render_one_indexed_witness :
    (0, 1, "Z") ∈ ((TerminalEngine.init 3 2).drawPixel 1 0 "Z").renderDiff
    ∧ (emitCell 0 1 "Z" ∈
        (((TerminalEngine.init 3 2).drawPixel 1 0 "Z").render).1
      ∧ emitCell 0 1 "Z" =
          "\x1b[" ++ toString (0 + 1) ++ ";" ++ toString (1 + 1) ++ "H" ++ "Z") :=
  ⟨by decide,
   render_one_indexed ((TerminalEngine.init 3 2).drawPixel 1 0 "Z")
     0 1 "Z" (by decide)⟩

/-- C7 counterexample: a cell carries no style tag.  `drawPixel` (the
engine's only cell-writing primitive, taking a glyph and no style
argument) stores a color-styled string `"\x1b[91mX\x1b[0m"` written
in-bounds at (0,0) of a 1×1 engine as the single character `"\x1b"` —
the style (and even the glyph 'X') is not stored with the cell — and
`render()` emits `"\x1b[1;1H\x1b"`: the glyph is not wrapped in a
style-apply escape and no style-reset trailer follows it (no 'X', no
`[0m` suffix in the emission). -/
theorem cell_has_no_style_counterexample :
    getCell (((TerminalEngine.init 1 1).drawPixel 0 0
        "\x1b[91mX\x1b[0m").buffer) 0 0 = "\x1b"
    ∧ getCell (((TerminalEngine.init 1 1).drawPixel 0 0
        "\x1b[91mX\x1b[0m").buffer) 0 0 ≠ "\x1b[91mX\x1b[0m"
    ∧ ((((TerminalEngine.init 1 1).drawPixel 0 0
        "\x1b[91mX\x1b[0m")).render).1 = ["\x1b[1;1H\x1b"]
    ∧ ¬ ('X' ∈ ("\x1b[1;1H\x1b").toList) := by
  refine ⟨by decide, by decide, by decide, by decide⟩

/-- C7 (amended): a cell holds only a single glyph character and no
style tag.  `drawPixel` takes no style argument; after any `drawPixel`
every cell either is unchanged or holds exactly the first character of
the glyph string (so style escapes passed inside the glyph are
truncated away, not stored), and `render()` emits, for each changed
cell, exactly the cursor-position command followed by the bare cell
contents — no style-apply wrapping and no style-reset trailer is ever
added. -/
theorem render_emits_bare_glyph (e : TerminalEngine) :
    (∀ (x y : Int) (s : String) (a b : Nat),
        getCell (e.drawPixel x y s).buffer a b = getCell e.buffer a b
        ∨ getCell (e.drawPixel x y s).buffer a b =
            String.mk (s.toList.take 1))
    ∧ (e.render).1 =
        e.renderDiff.map (fun t => emitCell t.1 t.2.1 t.2.2) := by
  refine ⟨?_, rfl⟩
  intro x y s a b
  unfold TerminalEngine.drawPixel
  split
  · show getCell (setCellAt e.buffer x.toNat y.toNat (strTrunc s)) a b
      = _ ∨ _
    unfold getCell setCellAt
    rw [getD_set_if]
    by_cases hb : y.toNat = b ∧ y.toNat < e.buffer.length
    · rw [if_pos hb, getD_set_if]
      by_cases ha : x.toNat = a ∧ x.toNat < (e.buffer.getD y.toNat []).length
      · rw [if_pos ha]
        exact Or.inr rfl
      · rw [if_neg ha]
        obtain ⟨rfl, _⟩ := hb
        exact Or.inl rfl
    · rw [if_neg hb]
      exact Or.inl rfl
  · exact Or.inl rfl
